import Mathlib

/-!
Shallow embedding of the numerical-integration core of the LXe-Phonon
notebooks (file `Simulation/Fluid_Wave/Fundamental Solution Integration
copy.ipynb`), together with theorems settling the specification claims
about it.

Conventions of the embedding:
* Python/numpy float arithmetic is modelled by real arithmetic (`ℝ`).
* `x ** 0.5` is modelled by `Real.sqrt` (all radicands that the claims
  touch are nonnegative).
* `np.sinc` is `npSinc` below (normalised sinc, `1` at `0`).
* Python `int(x)` (truncation toward zero) is `pyInt`.
* A division whose definedness is at issue (a Python scalar-float division
  raises `ZeroDivisionError` on a zero divisor; the numpy-float variant
  silently produces `inf`/`nan`) is modelled in the `…E` variants by
  `pdiv`, which returns `none` on a zero divisor.  The plain real-valued
  definitions (`f`, `e`, `Npts`, `k_0`, …) use total real division and are
  used for claims whose hypotheses keep every divisor nonzero.
-/

namespace LXe

noncomputable section

open Real

/-- Model of `np.sinc`: the normalised sinc function, `sin(πx)/(πx)`
with value `1` at `x = 0`. -/
def npSinc (x : ℝ) : ℝ :=
  if x = 0 then 1 else Real.sin (Real.pi * x) / (Real.pi * x)

/-- Model of Python `int(x)`: truncation toward zero. -/
def pyInt (x : ℝ) : ℤ :=
  if 0 ≤ x then ⌊x⌋ else ⌈x⌉

/-- Division as a Python scalar-float division: `none` models the
`ZeroDivisionError` raised on a zero divisor. -/
def pdiv (x y : ℝ) : Option ℝ :=
  if y = 0 then none else some (x / y)

/-- The integrand `f(k, r, t, w_0, c)` of the fundamental-solution
integral, transcribed from the notebook (real-valued total model; the
division-checked variant is `fE`). -/
def f (k r t w0 c : ℝ) : ℝ :=
  if t < 0 then 0
  else if k ≤ 0 then 0
  else if k < 2 * w0 / c then
    8 * Real.pi ^ 2 * c ^ 2 * k ^ 2 * Real.exp (-c ^ 2 * k ^ 2 * t / (2 * w0)) *
      npSinc (k * c * t / Real.pi * Real.sqrt (1 - k ^ 2 * c ^ 2 / (4 * w0 ^ 2))) *
      Real.sin (r * k) / (r * k)
  else if 2 * w0 / c < k then
    8 * Real.pi ^ 2 * c ^ 2 * k ^ 2 *
      (Real.exp (k * c * t * Real.sqrt (-1 + k ^ 2 * c ^ 2 / (4 * w0 ^ 2)) -
          c ^ 2 * k ^ 2 * t / (2 * w0)) -
       Real.exp (-k * c * t * Real.sqrt (-1 + k ^ 2 * c ^ 2 / (4 * w0 ^ 2)) -
          c ^ 2 * k ^ 2 * t / (2 * w0))) /
      (2 * k * c * t * Real.sqrt (-1 + k ^ 2 * c ^ 2 / (4 * w0 ^ 2))) *
      Real.sin (r * k) / (r * k)
  else 0

/-- The envelope `e(k, r, t)` of the notebook, with the module globals
`w_0` and `c` that the Python body reads made explicit parameters. -/
def e (k r t w0 c : ℝ) : ℝ :=
  if t < 0 then 0
  else if k ≤ 0 then 0
  else if k < 2 * w0 / c then
    8 * Real.pi ^ 2 * c ^ 2 * Real.exp (-c ^ 2 * k ^ 2 * t / (2 * w0)) /
      (r * c * t * Real.sqrt (1 - k ^ 2 * c ^ 2 / (4 * w0 ^ 2)))
  else if 2 * w0 / c < k then
    8 * Real.pi ^ 2 * c ^ 2 *
      (Real.exp (k * c * t * Real.sqrt (-1 + k ^ 2 * c ^ 2 / (4 * w0 ^ 2)) -
          c ^ 2 * k ^ 2 * t / (2 * w0)) -
       Real.exp (-k * c * t * Real.sqrt (-1 + k ^ 2 * c ^ 2 / (4 * w0 ^ 2)) -
          c ^ 2 * k ^ 2 * t / (2 * w0))) /
      (2 * c * t * Real.sqrt (-1 + k ^ 2 * c ^ 2 / (4 * w0 ^ 2))) / r
  else 0

/-- Transcription of `simps_point(f, a, b, Dx, params)`: the default
argument logic `if Dx < 0: Dx = abs(a-b)` is kept. -/
def simps_point (g : ℝ → ℝ) (a b Dx : ℝ) : ℝ :=
  let Dx' := if Dx < 0 then |a - b| else Dx
  Dx' / 6 * (g a + 4 * g ((a + b) / 2) + g b)

/-- Transcription of `simps(f, a, b, Npts, …)`: `Dx = abs(a-b)/Npts` and a
loop `for i in range(0, int(Npts)): integral += simps_point(f, a, a+i*Dx, Dx)`.
Note the second argument passed to `simps_point` in the source is `a + i*Dx`
while the first stays the global left endpoint `a`. -/
def simps (g : ℝ → ℝ) (a b N : ℝ) : ℝ :=
  let Dx := |a - b| / N
  ∑ i ∈ Finset.range (pyInt N).toNat, simps_point g a (a + i * Dx) Dx

/-- Transcription of `Npts(r, t, delta, Np, w_0, c)` (real-valued total
model; the division-checked variant is `NptsE`). -/
def Npts (r t delta Np w0 c : ℝ) : ℝ :=
  w0 * r * Np / (c * Real.pi) *
    Real.sqrt (16 * Real.pi ^ 4 * c ^ 2 / (delta ^ 2 * r ^ 2 * t ^ 2) *
      Real.exp (-2 * w0 * t) + 1)

/-- Transcription of `k_0(r, t, delta, w_0, c)` (real-valued total model;
the division-checked variant is `k0E`). -/
def k_0 (r t delta w0 c : ℝ) : ℝ :=
  2 * w0 / c *
    Real.sqrt (16 * Real.pi ^ 4 * c ^ 2 / (delta ^ 2 * r ^ 2 * t ^ 2) *
      Real.exp (-2 * w0 * t) + 1)

/-- Transcription of `F(r, t, delta, Np, w_0, c)`:
`simps(f, 1e-4, k_0(...), Npts(...), params=(r, t, w_0, c))`. -/
def F (r t delta Np w0 c : ℝ) : ℝ :=
  simps (fun k => f k r t w0 c) (1 / 10000) (k_0 r t delta w0 c) (Npts r t delta Np w0 c)

/-- Division-checked transcription of `f`: each Python scalar division is
carried out by `pdiv`, so the result is `none` exactly when the Python
expression divides by zero (a `ZeroDivisionError`, or a silent `nan`/`inf`
under numpy floats).  The branch order and the operands follow the source
line by line; the guard `2*w_0/c` is itself a division and is checked. -/
def fE (k r t w0 c : ℝ) : Option ℝ :=
  if t < 0 then some 0
  else if k ≤ 0 then some 0
  else do
    let kc ← pdiv (2 * w0) c
    if k < kc then do
      let a1 ← pdiv (-c ^ 2 * k ^ 2 * t) (2 * w0)
      let s1 ← pdiv (k ^ 2 * c ^ 2) (4 * w0 ^ 2)
      let x1 ← pdiv (k * c * t) Real.pi
      pdiv (8 * Real.pi ^ 2 * c ^ 2 * k ^ 2 * Real.exp a1 *
              npSinc (x1 * Real.sqrt (1 - s1)) * Real.sin (r * k))
           (r * k)
    else if kc < k then do
      let s1 ← pdiv (k ^ 2 * c ^ 2) (4 * w0 ^ 2)
      let a1 ← pdiv (c ^ 2 * k ^ 2 * t) (2 * w0)
      let q1 ← pdiv (8 * Real.pi ^ 2 * c ^ 2 * k ^ 2 *
                (Real.exp (k * c * t * Real.sqrt (-1 + s1) - a1) -
                 Real.exp (-k * c * t * Real.sqrt (-1 + s1) - a1)))
              (2 * k * c * t * Real.sqrt (-1 + s1))
      pdiv (q1 * Real.sin (r * k)) (r * k)
    else some 0

/-- Division-checked transcription of `Npts`: `none` models the
`ZeroDivisionError` the unguarded source raises on scalar floats when a
divisor (in particular `delta**2 * r**2 * t**2`) is zero. -/
def NptsE (r t delta Np w0 c : ℝ) : Option ℝ := do
  let p ← pdiv (w0 * r * Np) (c * Real.pi)
  let q ← pdiv (16 * Real.pi ^ 4 * c ^ 2) (delta ^ 2 * r ^ 2 * t ^ 2)
  some (p * Real.sqrt (q * Real.exp (-2 * w0 * t) + 1))

/-- Division-checked transcription of `k_0`, as for `NptsE`. -/
def k0E (r t delta w0 c : ℝ) : Option ℝ := do
  let p ← pdiv (2 * w0) c
  let q ← pdiv (16 * Real.pi ^ 4 * c ^ 2) (delta ^ 2 * r ^ 2 * t ^ 2)
  some (p * Real.sqrt (q * Real.exp (-2 * w0 * t) + 1))

/-- Model of `np.linspace(a, b, n)`: `n` evenly spaced points from `a` to
`b`, both endpoints included. -/
def linspace (a b : ℝ) (n : ℕ) : List ℝ :=
  if n = 0 then []
  else if n = 1 then [a]
  else (List.range n).map (fun i => a + i * ((b - a) / (n - 1)))

/-- Transcription of `F_slice(r_min, r_max, Nr, t, delta, Np, w_0, c)`.
The function also reads the module-level globals `t_min`, `t_max` and `Nt`,
made explicit trailing parameters here.  Its result is modelled as a pair:
the first component is the returned grid `[F(r, t, …) for r in
linspace(r_min, r_max, Nr)]`; the second component records the numbers
interpolated into the printed diagnostic text, in print order, and the
locals `T = linspace(t_min, t_max, Nt)` is built and never used, exactly
as in the source. -/
def F_slice (r_min r_max : ℝ) (Nr : ℕ) (t delta Np w0 c : ℝ)
    (t_min t_max : ℝ) (Nt : ℕ) : List ℝ × List ℝ :=
  let diag : List ℝ :=
    [(Nr : ℝ), (Nt : ℝ), t, r_min, r_max, (r_max - r_min) / (Nr : ℝ),
     c, w0, 2 * w0 / c, delta,
     k_0 r_min t delta w0 c, k_0 r_max t delta w0 c, Np,
     ((pyInt (Npts r_min t delta Np w0 c) : ℤ) : ℝ),
     ((pyInt (Npts r_max t delta Np w0 c) : ℤ) : ℝ)]
  let R := linspace r_min r_max Nr
  let T := linspace t_min t_max Nt
  let grid := R.map (fun r => F r t delta Np w0 c)
  (grid, diag)

/-- Modelled from the spec: the per-subinterval composite Simpson rule the
spec (and the notebook's own markdown) describes for `simps` — partition
`[a, b]` into `N` equal subintervals of width `Δx = (b-a)/N` and apply the
three-point Simpson one-third rule on each `[xᵢ, xᵢ + Δx]`, `xᵢ = a + iΔx`.
Used only to compare the source's `simps` against the specified rule. -/
def simpsSpec (g : ℝ → ℝ) (a b : ℝ) (N : ℕ) : ℝ :=
  let Dx := (b - a) / N
  ∑ i ∈ Finset.range N,
    Dx / 6 * (g (a + i * Dx) + 4 * g (a + i * Dx + Dx / 2) + g (a + i * Dx + Dx))

/-- Modelled from the spec's claimed formula for the estimator's
subinterval count, which has no `exp(-2 w0 t)` factor inside the square
root; used only to compare claim C2 against the source's `Npts`. -/
def NptsClaimed (r t delta Np w0 c : ℝ) : ℝ :=
  w0 * r * Np / (c * Real.pi) *
    Real.sqrt (16 * Real.pi ^ 4 * c ^ 2 / (delta ^ 2 * r ^ 2 * t ^ 2) + 1)

end

/-- Claim C2 (counterexample): at `r = t = 1`, `delta = 1/2`, `Np = 1`,
`w0 = 1`, `c = 1` — all inside the claim's ranges — the source's `Npts`
differs from the claimed formula, because the source multiplies the
`16π⁴c²/(δ²r²t²)` term by `exp(-2 w0 t) < 1` before adding `1`. -/
theorem Npts_claim_counterexample :
    Npts 1 1 (1 / 2) 1 1 1 ≠ NptsClaimed 1 1 (1 / 2) 1 1 1 := by
  unfold Npts NptsClaimed
  apply ne_of_lt
  have hB : (0 : ℝ) <
      16 * Real.pi ^ 4 * (1 : ℝ) ^ 2 / ((1 / 2 : ℝ) ^ 2 * 1 ^ 2 * 1 ^ 2) := by
    positivity
  have hexp : Real.exp (-2 * 1 * 1) < 1 :=
    Real.exp_lt_one_iff.mpr (by norm_num)
  have hlt :
      16 * Real.pi ^ 4 * (1 : ℝ) ^ 2 / ((1 / 2 : ℝ) ^ 2 * 1 ^ 2 * 1 ^ 2) *
          Real.exp (-2 * 1 * 1) <
        16 * Real.pi ^ 4 * (1 : ℝ) ^ 2 / ((1 / 2 : ℝ) ^ 2 * 1 ^ 2 * 1 ^ 2) :=
    mul_lt_of_lt_one_right hB hexp
  have hs := Real.sqrt_lt_sqrt
    (x := 16 * Real.pi ^ 4 * (1 : ℝ) ^ 2 / ((1 / 2 : ℝ) ^ 2 * 1 ^ 2 * 1 ^ 2) *
      Real.exp (-2 * 1 * 1) + 1)
    (y := 16 * Real.pi ^ 4 * (1 : ℝ) ^ 2 / ((1 / 2 : ℝ) ^ 2 * 1 ^ 2 * 1 ^ 2) + 1)
    (by positivity) (by linarith)
  have hpre : (0 : ℝ) < 1 * 1 * 1 / (1 * Real.pi) := by positivity
  exact mul_lt_mul_of_pos_left hs hpre

/-- Claim C2 (amended): with the `exp(-2 w0 t)` damping factor restored
inside the square root, the source's `Npts` matches the formula for every
`r > 0`, `t > 0`, `0 < delta < 1`, `Np > 0`, `w0 > 0`, `c > 0`. -/
theorem Npts_formula_with_exp (r t delta Np w0 c : ℝ) (hr : 0 < r)
    (ht : 0 < t) (hδ0 : 0 < delta) (hδ1 : delta < 1) (hNp : 0 < Np)
    (hw : 0 < w0) (hc : 0 < c) :
    Npts r t delta Np w0 c =
      w0 * r * Np / (c * Real.pi) *
        Real.sqrt (16 * Real.pi ^ 4 * c ^ 2 / (delta ^ 2 * r ^ 2 * t ^ 2) *
          Real.exp (-(2 * w0 * t)) + 1) := by
  unfold Npts
  rw [show (-2 : ℝ) * w0 * t = -(2 * w0 * t) by ring]

/-- Witness for the amended C2 at `r = t = 1`, `delta = 1/2`, `Np = 1`,
`w0 = c = 1`. -/
theorem Npts_formula_with_exp_witness :
    Npts 1 1 (1 / 2) 1 1 1 =
      1 * 1 * 1 / (1 * Real.pi) *
        Real.sqrt (16 * Real.pi ^ 4 * 1 ^ 2 / ((1 / 2 : ℝ) ^ 2 * 1 ^ 2 * 1 ^ 2) *
          Real.exp (-(2 * 1 * 1)) + 1) :=
  Npts_formula_with_exp 1 1 (1 / 2) 1 1 1 (by norm_num) (by norm_num)
    (by norm_num) (by norm_num) (by norm_num) (by norm_num) (by norm_num)

/-- Claim C3 (counterexample): at `r = 0` with every other input valid
(`t = 1`, `delta = 1/2`, `Np = 1`, `w0 = 1`, `c = 1`), the unguarded
division by `delta^2 * r^2 * t^2 = 0` makes both estimator functions
undefined (`none` models the `ZeroDivisionError` Python raises on scalar
floats; numpy floats give `inf`/`nan` instead) — they do not return a
defined zero or sentinel value. -/
theorem estimator_zero_r_counterexample :
    NptsE 0 1 (1 / 2) 1 1 1 = none ∧ k0E 0 1 (1 / 2) 1 1 = none := by
  constructor <;>
  · simp [NptsE, k0E, pdiv, Real.pi_ne_zero]

/-- Claim C3 (amended): at `r = 0` or `t = 0` the estimator's divisor
`delta^2 * r^2 * t^2` is zero, so the unguarded divisions in `Npts` and
`k_0` fail (raise / produce non-finite values) for every choice of the
remaining inputs. -/
theorem estimator_degenerate_none (r t delta Np w0 c : ℝ)
    (h : r = 0 ∨ t = 0) :
    NptsE r t delta Np w0 c = none ∧ k0E r t delta w0 c = none := by
  have hz : delta ^ 2 * r ^ 2 * t ^ 2 = 0 := by
    rcases h with h | h <;> simp [h]
  constructor <;>
  · simp only [NptsE, k0E, pdiv, hz]
    split_ifs <;> simp

/-- Witness for the amended C3 at `r = 0`, `t = 2`, `delta = 1/3`,
`Np = 5`, `w0 = 2`, `c = 3`. -/
theorem estimator_degenerate_none_witness :
    NptsE 0 2 (1 / 3) 5 2 3 = none ∧ k0E 0 2 (1 / 3) 2 3 = none :=
  estimator_degenerate_none 0 2 (1 / 3) 5 2 3 (Or.inl rfl)

/-- Claim C7 (counterexample): at `k = 1`, `r = 0`, `t = 1`, `w0 = 1`,
`c = 1` (sub-critical, since `1 < 2·w0/c = 2`) the spatial factor
`sin(r·k)/(r·k)` divides by `r·k = 0`, so `f` is not the defined real
number the claim gives — the division fails (`none` models the zero
division: a `nan` on numpy floats, a `ZeroDivisionError` on scalars). -/
theorem f_r_zero_counterexample : fE 1 0 1 1 1 = none := by
  simp only [fE, pdiv, Real.pi_ne_zero]
  norm_num

/-- Claim C7 (amended): for every sub-critical wavenumber (`0 < k <
2 w0 / c`, with `t ≥ 0`, `w0 > 0`, `c > 0`) and `r = 0`, the unguarded
spatial factor `sin(r·k)/(r·k)` makes `f` undefined at `r·k = 0` rather
than contributing the limiting factor `1`. -/
theorem fE_r_zero_none (k t w0 c : ℝ) (ht : 0 ≤ t) (hk : 0 < k)
    (hkc : k < 2 * w0 / c) (hw : 0 < w0) (hc : 0 < c) :
    fE k 0 t w0 c = none := by
  have h2w : (2 : ℝ) * w0 ≠ 0 := by positivity
  have h4w : (4 : ℝ) * w0 ^ 2 ≠ 0 := by positivity
  simp [fE, pdiv, not_lt.2 ht, not_le.2 hk, hc.ne', hkc, h2w, h4w,
    Real.pi_ne_zero]

/-- Witness for the amended C7 at `k = 1`, `t = 2`, `w0 = 2`, `c = 1`. -/
theorem fE_r_zero_none_witness : fE 1 0 2 2 1 = none :=
  fE_r_zero_none 1 2 2 1 (by norm_num) (by norm_num) (by norm_num)
    (by norm_num) (by norm_num)

/-- At the evaluation point `r = 1`, `t = 100`, `delta = Np = w0 = c = 1`
the estimator's output is strictly positive. -/
lemma Npts_pt_pos : 0 < Npts 1 100 1 1 1 1 := by
  unfold Npts
  positivity

/-- At the same evaluation point the estimator's output is below `1`:
the damping `exp(-200)` kills the oscillation term and `sqrt(… + 1) < 2 < π`. -/
lemma Npts_pt_lt_one : Npts 1 100 1 1 1 1 < 1 := by
  unfold Npts
  rw [div_mul_eq_mul_div, div_lt_one (by positivity)]
  have key :
      Real.sqrt (16 * Real.pi ^ 4 * (1 : ℝ) ^ 2 /
          ((1 : ℝ) ^ 2 * 1 ^ 2 * 100 ^ 2) * Real.exp (-2 * 1 * 100) + 1) < 2 := by
    rw [Real.sqrt_lt' (by norm_num)]
    have hπ : Real.pi < 4 := Real.pi_lt_four
    have hπ0 : (0 : ℝ) < Real.pi := Real.pi_pos
    have hp4 : Real.pi ^ 4 < 256 := by
      have h := pow_lt_pow_left₀ hπ hπ0.le (by norm_num : (4 : ℕ) ≠ 0)
      norm_num at h
      exact h
    have he : Real.exp (-2 * 1 * 100) ≤ 1 :=
      Real.exp_le_one_iff.mpr (by norm_num)
    have hA : 16 * Real.pi ^ 4 * Real.exp (-2 * 1 * 100) ≤ 4096 := by
      have hm : 16 * Real.pi ^ 4 * Real.exp (-2 * 1 * 100) ≤ 16 * Real.pi ^ 4 :=
        mul_le_of_le_one_right (by positivity) he
      linarith
    norm_num at hA ⊢
    linarith [hA]
  linarith [Real.pi_gt_three, key]

/-- Claim C6 (counterexample): at `r = 1`, `t = 100`, `delta = Np = w0 =
c = 1` the estimator output lies strictly between `0` and `1`, so the count
the quadrature loop actually uses (`int(Npts)`, i.e. truncation) is `0`,
while the ceiling the claim asserts is `1 ≥ 1`; the quadrature sum is
empty and `F` returns `0`. -/
theorem quadrature_count_counterexample :
    (pyInt (Npts 1 100 1 1 1 1)).toNat = 0 ∧
      1 ≤ ⌈Npts 1 100 1 1 1 1⌉ ∧ F 1 100 1 1 1 1 = 0 := by
  have h0 := Npts_pt_pos
  have h1 := Npts_pt_lt_one
  have hfl : ⌊Npts 1 100 1 1 1 1⌋ = 0 :=
    Int.floor_eq_zero_iff.mpr (Set.mem_Ico.mpr ⟨h0.le, h1⟩)
  have hcnt : (pyInt (Npts 1 100 1 1 1 1)).toNat = 0 := by
    unfold pyInt
    rw [if_pos h0.le, hfl]
    rfl
  refine ⟨hcnt, Int.ceil_pos.mpr h0, ?_⟩
  unfold F simps
  rw [hcnt]
  simp

/-- Claim C6 (amended): the quadrature step of `F` uses `int(Npts(...))`
subintervals — the estimator's fractional output truncated toward zero
(its floor, on nonnegative output) — and this count can be `0`: whenever
`Npts(...) < 1` the loop body never runs and `F` returns `0`. -/
theorem quadrature_count_trunc (r t delta Np w0 c : ℝ)
    (h0 : 0 ≤ Npts r t delta Np w0 c) :
    (pyInt (Npts r t delta Np w0 c)).toNat =
        (⌊Npts r t delta Np w0 c⌋).toNat ∧
      (Npts r t delta Np w0 c < 1 → F r t delta Np w0 c = 0) := by
  constructor
  · unfold pyInt
    rw [if_pos h0]
  · intro h1
    have hfl : ⌊Npts r t delta Np w0 c⌋ = 0 :=
      Int.floor_eq_zero_iff.mpr (Set.mem_Ico.mpr ⟨h0, h1⟩)
    unfold F simps pyInt
    rw [if_pos h0, hfl]
    simp

/-- Witness for the amended C6 at `r = 1`, `t = 100`,
`delta = Np = w0 = c = 1`. -/
theorem quadrature_count_trunc_witness :
    (pyInt (Npts 1 100 1 1 1 1)).toNat = (⌊Npts 1 100 1 1 1 1⌋).toNat ∧
      (Npts 1 100 1 1 1 1 < 1 → F 1 100 1 1 1 1 = 0) :=
  quadrature_count_trunc 1 100 1 1 1 1 Npts_pt_pos.le

/-- Claim C9: causality — for every time `t < 0` (any `k`, `r`, and positive
constants `w0`, `c`) the integrand satisfies `f k r t w0 c = 0`. -/
theorem f_causality (k r t w0 c : ℝ) (hw : 0 < w0) (hc : 0 < c) (ht : t < 0) :
    f k r t w0 c = 0 := by
  unfold f
  rw [if_pos ht]

/-- Witness for C9 at `k = 1`, `r = 1`, `t = -1`, `w0 = 1`, `c = 1`. -/
theorem f_causality_witness : f 1 1 (-1) 1 1 = 0 :=
  f_causality 1 1 (-1) 1 1 (by norm_num) (by norm_num) (by norm_num)

/-- Claim C8: the integrand is even in the radius — for every `k`, `r`, `t`
and positive constants `w0`, `c`, `f k (-r) t w0 c = f k r t w0 c`. -/
theorem f_even_in_r (k r t w0 c : ℝ) (hw : 0 < w0) (hc : 0 < c) :
    f k (-r) t w0 c = f k r t w0 c := by
  unfold f
  split_ifs with h1 h2 h3 h4
  · rfl
  · rfl
  · simp only [neg_mul, Real.sin_neg, mul_neg, neg_div_neg_eq]
  · simp only [neg_mul, Real.sin_neg, mul_neg, neg_div_neg_eq]
  · rfl

/-- Witness for C8 at `k = 3`, `r = 2`, `t = 5`, `w0 = 1`, `c = 1`. -/
theorem f_even_in_r_witness : f 3 (-2) 5 1 1 = f 3 2 5 1 1 :=
  f_even_in_r 3 2 5 1 1 (by norm_num) (by norm_num)

/-- Claim C4: for `r ≠ 0`, `t ≠ 0`, `delta > 0`, `w0 > 0`, `c > 0`, the
cutoff equals `(2 w0 / c) · sqrt(16 π⁴ c² / (δ² r² t²) · exp(-2 w0 t) + 1)`. -/
theorem k_0_formula (r t delta w0 c : ℝ) (hr : r ≠ 0) (ht : t ≠ 0)
    (hδ : 0 < delta) (hw : 0 < w0) (hc : 0 < c) :
    k_0 r t delta w0 c =
      2 * w0 / c *
        Real.sqrt (16 * Real.pi ^ 4 * c ^ 2 / (delta ^ 2 * r ^ 2 * t ^ 2) *
          Real.exp (-(2 * w0 * t)) + 1) := by
  unfold k_0
  rw [show (-2 : ℝ) * w0 * t = -(2 * w0 * t) by ring]

/-- Witness for C4 at `r = t = delta = w0 = c = 1`. -/
theorem k_0_formula_witness :
    k_0 1 1 1 1 1 =
      2 * 1 / 1 *
        Real.sqrt (16 * Real.pi ^ 4 * 1 ^ 2 / ((1 : ℝ) ^ 2 * 1 ^ 2 * 1 ^ 2) *
          Real.exp (-(2 * 1 * 1)) + 1) :=
  k_0_formula 1 1 1 1 1 (by norm_num) (by norm_num) (by norm_num) (by norm_num)
    (by norm_num)

/-- Claim C1 (divergence witness): the source's `simps` does not apply the
Simpson one-third rule to each subinterval `[xᵢ, xᵢ + Δx]` — the loop passes
`a` as the left endpoint of every subinterval.  On the linear integrand
`g x = x` over `[0, 2]` with `N = 2` the code returns `1/2`, while the
specified per-subinterval composite rule (exact on linear functions)
returns `2`. -/
theorem simps_left_endpoint_divergence :
    simps (fun x => x) 0 2 2 = 1 / 2 ∧ simpsSpec (fun x => x) 0 2 2 = 2 := by
  constructor
  · unfold simps simps_point pyInt
    norm_num [show Int.toNat 2 = 2 from rfl, Finset.sum_range_succ]
  · unfold simpsSpec
    norm_num [Finset.sum_range_succ]

/-- The sine function is bounded by one in absolute value. -/
lemma abs_sin_le_one (x : ℝ) : |Real.sin x| ≤ 1 :=
  abs_le.mpr ⟨Real.neg_one_le_sin x, Real.sin_le_one x⟩

/-- Bounding a product of the form `P · (s₁/A) · s₂ / d` when the
oscillatory factors `s₁`, `s₂` have amplitude at most one. -/
lemma abs_sinc_prod_le (P A d s1 s2 : ℝ) (hP : 0 ≤ P) (hA : 0 < A)
    (hd : 0 < d) (h1 : |s1| ≤ 1) (h2 : |s2| ≤ 1) :
    |P * (s1 / A) * s2 / d| ≤ P / A / d := by
  rw [abs_div, abs_mul, abs_mul, abs_div, abs_of_nonneg hP, abs_of_pos hA,
    abs_of_pos hd]
  have h1' : |s1| / A ≤ 1 / A := (div_le_div_iff_of_pos_right hA).mpr h1
  have hstep : P * (|s1| / A) * |s2| ≤ P * (1 / A) * 1 :=
    mul_le_mul (mul_le_mul_of_nonneg_left h1' hP) h2 (abs_nonneg _)
      (mul_nonneg hP (by positivity))
  calc P * (|s1| / A) * |s2| / d ≤ P * (1 / A) * 1 / d :=
        (div_le_div_iff_of_pos_right hd).mpr hstep
    _ = P / A / d := by ring

/-- Bounding a product of the form `Q · s₂ / d` when the oscillatory
factor `s₂` has amplitude at most one. -/
lemma abs_osc_prod_le (Q d s2 : ℝ) (hQ : 0 ≤ Q) (hd : 0 < d)
    (h2 : |s2| ≤ 1) :
    |Q * s2 / d| ≤ Q / d := by
  rw [abs_div, abs_mul, abs_of_nonneg hQ, abs_of_pos hd]
  exact (div_le_div_iff_of_pos_right hd).mpr (mul_le_of_le_one_right hQ h2)

/-- Envelope bound in the sub-critical regime `0 < k < 2 w0 / c`. -/
lemma f_le_e_subcritical (k r t w0 c : ℝ) (hr : 0 < r) (ht : 0 < t)
    (hk : 0 < k) (hsub : k < 2 * w0 / c) (hw : 0 < w0) (hc : 0 < c) :
    |f k r t w0 c| ≤ e k r t w0 c := by
  have hα : 0 < 1 - k ^ 2 * c ^ 2 / (4 * w0 ^ 2) := by
    have hkc : k * c < 2 * w0 := (lt_div_iff₀ hc).mp hsub
    have h2 : k ^ 2 * c ^ 2 < 4 * w0 ^ 2 := by nlinarith [mul_pos hk hc]
    have h3 : k ^ 2 * c ^ 2 / (4 * w0 ^ 2) < 1 :=
      (div_lt_one (by positivity)).mpr h2
    linarith
  have hsq : 0 < Real.sqrt (1 - k ^ 2 * c ^ 2 / (4 * w0 ^ 2)) :=
    Real.sqrt_pos.mpr hα
  have hA : 0 < k * c * t * Real.sqrt (1 - k ^ 2 * c ^ 2 / (4 * w0 ^ 2)) :=
    mul_pos (mul_pos (mul_pos hk hc) ht) hsq
  have hx : 0 <
      k * c * t / Real.pi * Real.sqrt (1 - k ^ 2 * c ^ 2 / (4 * w0 ^ 2)) :=
    mul_pos (div_pos (mul_pos (mul_pos hk hc) ht) Real.pi_pos) hsq
  have hf : f k r t w0 c =
      8 * Real.pi ^ 2 * c ^ 2 * k ^ 2 *
          Real.exp (-c ^ 2 * k ^ 2 * t / (2 * w0)) *
        (Real.sin (k * c * t * Real.sqrt (1 - k ^ 2 * c ^ 2 / (4 * w0 ^ 2))) /
          (k * c * t * Real.sqrt (1 - k ^ 2 * c ^ 2 / (4 * w0 ^ 2)))) *
        Real.sin (r * k) / (r * k) := by
    unfold f
    rw [if_neg (not_lt.2 ht.le), if_neg (not_le.2 hk), if_pos hsub]
    unfold npSinc
    rw [if_neg hx.ne']
    have harg : Real.pi * (k * c * t / Real.pi *
        Real.sqrt (1 - k ^ 2 * c ^ 2 / (4 * w0 ^ 2))) =
        k * c * t * Real.sqrt (1 - k ^ 2 * c ^ 2 / (4 * w0 ^ 2)) := by
      field_simp
      ring
    rw [harg]
  have hev : e k r t w0 c =
      8 * Real.pi ^ 2 * c ^ 2 * Real.exp (-c ^ 2 * k ^ 2 * t / (2 * w0)) /
        (r * c * t * Real.sqrt (1 - k ^ 2 * c ^ 2 / (4 * w0 ^ 2))) := by
    unfold e
    rw [if_neg (not_lt.2 ht.le), if_neg (not_le.2 hk), if_pos hsub]
  rw [hf, hev]
  have hbound := abs_sinc_prod_le
    (8 * Real.pi ^ 2 * c ^ 2 * k ^ 2 *
      Real.exp (-c ^ 2 * k ^ 2 * t / (2 * w0)))
    (k * c * t * Real.sqrt (1 - k ^ 2 * c ^ 2 / (4 * w0 ^ 2)))
    (r * k)
    (Real.sin (k * c * t * Real.sqrt (1 - k ^ 2 * c ^ 2 / (4 * w0 ^ 2))))
    (Real.sin (r * k))
    (by positivity) hA (mul_pos hr hk) (abs_sin_le_one _) (abs_sin_le_one _)
  refine hbound.trans_eq ?_
  rw [div_div, div_eq_div_iff (mul_pos hA (mul_pos hr hk)).ne'
    (mul_pos (mul_pos (mul_pos hr hc) ht) hsq).ne']
  ring

/-- Envelope bound in the super-critical regime `k > 2 w0 / c`. -/
lemma f_le_e_supercritical (k r t w0 c : ℝ) (hr : 0 < r) (ht : 0 < t)
    (hk : 0 < k) (hsup : 2 * w0 / c < k) (hw : 0 < w0) (hc : 0 < c) :
    |f k r t w0 c| ≤ e k r t w0 c := by
  have hβ : 0 < -1 + k ^ 2 * c ^ 2 / (4 * w0 ^ 2) := by
    have hkc : 2 * w0 < k * c := by
      have h := (div_lt_iff₀ hc).mp hsup
      linarith
    have h2 : 4 * w0 ^ 2 < k ^ 2 * c ^ 2 := by nlinarith [hw]
    have h3 : 1 < k ^ 2 * c ^ 2 / (4 * w0 ^ 2) :=
      (one_lt_div (by positivity)).mpr h2
    linarith
  have hsq : 0 < Real.sqrt (-1 + k ^ 2 * c ^ 2 / (4 * w0 ^ 2)) :=
    Real.sqrt_pos.mpr hβ
  have hkct : 0 ≤ k * c * t * Real.sqrt (-1 + k ^ 2 * c ^ 2 / (4 * w0 ^ 2)) :=
    (mul_pos (mul_pos (mul_pos hk hc) ht) hsq).le
  have hD : 0 ≤
      Real.exp (k * c * t * Real.sqrt (-1 + k ^ 2 * c ^ 2 / (4 * w0 ^ 2)) -
          c ^ 2 * k ^ 2 * t / (2 * w0)) -
        Real.exp (-k * c * t * Real.sqrt (-1 + k ^ 2 * c ^ 2 / (4 * w0 ^ 2)) -
          c ^ 2 * k ^ 2 * t / (2 * w0)) := by
    have hmono :
        -k * c * t * Real.sqrt (-1 + k ^ 2 * c ^ 2 / (4 * w0 ^ 2)) -
            c ^ 2 * k ^ 2 * t / (2 * w0) ≤
          k * c * t * Real.sqrt (-1 + k ^ 2 * c ^ 2 / (4 * w0 ^ 2)) -
            c ^ 2 * k ^ 2 * t / (2 * w0) := by
      nlinarith [hkct]
    have h := Real.exp_le_exp.mpr hmono
    linarith
  have hf : f k r t w0 c =
      8 * Real.pi ^ 2 * c ^ 2 * k ^ 2 *
          (Real.exp (k * c * t * Real.sqrt (-1 + k ^ 2 * c ^ 2 / (4 * w0 ^ 2)) -
              c ^ 2 * k ^ 2 * t / (2 * w0)) -
           Real.exp (-k * c * t * Real.sqrt (-1 + k ^ 2 * c ^ 2 / (4 * w0 ^ 2)) -
              c ^ 2 * k ^ 2 * t / (2 * w0))) /
          (2 * k * c * t * Real.sqrt (-1 + k ^ 2 * c ^ 2 / (4 * w0 ^ 2))) *
        Real.sin (r * k) / (r * k) := by
    unfold f
    rw [if_neg (not_lt.2 ht.le), if_neg (not_le.2 hk),
      if_neg (not_lt.2 hsup.le), if_pos hsup]
  have hev : e k r t w0 c =
      8 * Real.pi ^ 2 * c ^ 2 *
          (Real.exp (k * c * t * Real.sqrt (-1 + k ^ 2 * c ^ 2 / (4 * w0 ^ 2)) -
              c ^ 2 * k ^ 2 * t / (2 * w0)) -
           Real.exp (-k * c * t * Real.sqrt (-1 + k ^ 2 * c ^ 2 / (4 * w0 ^ 2)) -
              c ^ 2 * k ^ 2 * t / (2 * w0))) /
          (2 * c * t * Real.sqrt (-1 + k ^ 2 * c ^ 2 / (4 * w0 ^ 2))) / r := by
    unfold e
    rw [if_neg (not_lt.2 ht.le), if_neg (not_le.2 hk),
      if_neg (not_lt.2 hsup.le), if_pos hsup]
  rw [hf, hev]
  have hQ : 0 ≤
      8 * Real.pi ^ 2 * c ^ 2 * k ^ 2 *
          (Real.exp (k * c * t * Real.sqrt (-1 + k ^ 2 * c ^ 2 / (4 * w0 ^ 2)) -
              c ^ 2 * k ^ 2 * t / (2 * w0)) -
           Real.exp (-k * c * t * Real.sqrt (-1 + k ^ 2 * c ^ 2 / (4 * w0 ^ 2)) -
              c ^ 2 * k ^ 2 * t / (2 * w0))) /
          (2 * k * c * t * Real.sqrt (-1 + k ^ 2 * c ^ 2 / (4 * w0 ^ 2))) :=
    div_nonneg (mul_nonneg (by positivity) hD) (by positivity)
  have hbound := abs_osc_prod_le _ (r * k) (Real.sin (r * k)) hQ
    (mul_pos hr hk) (abs_sin_le_one _)
  refine hbound.trans_eq ?_
  have hden1 : (0 : ℝ) <
      2 * k * c * t * Real.sqrt (-1 + k ^ 2 * c ^ 2 / (4 * w0 ^ 2)) * (r * k) :=
    mul_pos (mul_pos (mul_pos (mul_pos (mul_pos two_pos hk) hc) ht) hsq)
      (mul_pos hr hk)
  have hden2 : (0 : ℝ) <
      2 * c * t * Real.sqrt (-1 + k ^ 2 * c ^ 2 / (4 * w0 ^ 2)) * r :=
    mul_pos (mul_pos (mul_pos (mul_pos two_pos hc) ht) hsq) hr
  rw [div_div, div_div, div_eq_div_iff hden1.ne' hden2.ne']
  ring

/-- Claim C5: the envelope dominates the integrand — for every `r > 0`,
`t > 0`, `k > 0` with `k ≠ 2 w0 / c` (and positive constants),
`|f k r t w0 c| ≤ e k r t w0 c`; and `e` applies the same guards as `f`,
returning `0` whenever `t < 0` or `k ≤ 0`. -/
theorem f_le_envelope :
    (∀ k r t w0 c : ℝ, 0 < r → 0 < t → 0 < k → k ≠ 2 * w0 / c → 0 < w0 →
        0 < c → |f k r t w0 c| ≤ e k r t w0 c) ∧
      (∀ k r t w0 c : ℝ, t < 0 ∨ k ≤ 0 → e k r t w0 c = 0) := by
  constructor
  · intro k r t w0 c hr ht hk hkne hw hc
    rcases lt_or_gt_of_ne hkne with hsub | hsup
    · exact f_le_e_subcritical k r t w0 c hr ht hk hsub hw hc
    · exact f_le_e_supercritical k r t w0 c hr ht hk hsup hw hc
  · intro k r t w0 c h
    unfold e
    by_cases ht : t < 0
    · rw [if_pos ht]
    · rcases h with h | h
      · exact absurd h ht
      · rw [if_neg ht, if_pos h]

/-- Witness for C5: the bound at `k = r = t = w0 = c = 1` (sub-critical,
`1 ≠ 2`), and the guard at `t = -1`. -/
theorem f_le_envelope_witness :
    |f 1 1 1 1 1| ≤ e 1 1 1 1 1 ∧ e 1 1 (-1) 1 1 = 0 :=
  ⟨f_le_envelope.1 1 1 1 1 1 (by norm_num) (by norm_num) (by norm_num)
      (by norm_num) (by norm_num) (by norm_num),
    f_le_envelope.2 1 1 (-1) 1 1 (Or.inl (by norm_num))⟩

/-- Claim C10: the grid that `F_slice` returns depends only on its
arguments — the module-level globals `t_min`, `t_max`, `Nt` it reads may
change the printed diagnostics and the unused local linspace `T`, but never
the returned values. -/
theorem F_slice_grid_independent_of_globals
    (r_min r_max : ℝ) (Nr : ℕ) (t delta Np w0 c : ℝ)
    (tm1 tM1 : ℝ) (Nt1 : ℕ) (tm2 tM2 : ℝ) (Nt2 : ℕ) :
    (F_slice r_min r_max Nr t delta Np w0 c tm1 tM1 Nt1).1 =
      (F_slice r_min r_max Nr t delta Np w0 c tm2 tM2 Nt2).1 :=
  rfl

end LXe
